import Mathlib

/-!
Verification development for `regdump.c` (adoxa/regdump), a dumper for
Windows registry hive files.  The C source is shallowly embedded below:
pure helper functions become Lean functions, the raw hive image becomes a
total byte memory `Mem : Int → Nat` (addresses are relative to `root`,
i.e. buffer base + 0x1000, matching the C pointer arithmetic), and the
recursive tree walker becomes a structurally recursive function over a
decoded key tree carrying explicit state (context flags, the shared path
buffer, and the emitted output lines).

Output is modelled as a list of tokens; the locale-dependent textual form
produced by `print_time` is abstracted as a token recording the arguments
passed to it (the tick count and the `full`/`brackets` flags).
-/

namespace Regdump

/-! ### Character / hex formatting helpers (sprintf "%02X", "%0*X", "%X") -/

/-- Printable ASCII test used throughout the C source: `c >= 32 && c < 127`. -/
def printable (c : Nat) : Bool := 32 ≤ c && c < 127

/-- Single uppercase hex digit. -/
def hexDig (n : Nat) : Char := if n < 10 then Char.ofNat (48 + n) else Char.ofNat (55 + n)

/-- Two-digit uppercase hex, as produced by `sprintf("%02X", b)` for a byte. -/
def hex2 (b : Nat) : String := String.mk [hexDig (b / 16 % 16), hexDig (b % 16)]

/-- Four-digit uppercase hex, as produced by `sprintf("%04X", u)` for a 16-bit unit. -/
def hex4 (u : Nat) : String :=
  String.mk [hexDig (u / 4096 % 16), hexDig (u / 256 % 16), hexDig (u / 16 % 16), hexDig (u % 16)]

/-- Hex digits of `n`, most significant first; `fuel` bounds the digit count
(16 digits cover every 64-bit quantity printed by the program). -/
def hexAux : Nat → Nat → List Char
  | 0, _ => []
  | _ + 1, 0 => []
  | fuel + 1, n => hexAux fuel (n / 16) ++ [hexDig (n % 16)]

/-- Unpadded uppercase hex, as produced by `printf("%X", n)` / `"%llX"`. -/
def hexU (n : Nat) : String := if n = 0 then "0" else String.mk (hexAux 16 n)

/-- One-character string for a `putchar` of code `u`. -/
def charStr (u : Nat) : String := String.singleton (Char.ofNat u)

/-- Comma-separated `%02X` dump of `n` bytes fetched through `f`
(the fallback binary rendering loop of `walk`). -/
def hexPairs (f : Nat → Nat) (n : Nat) : String :=
  String.intercalate "," ((List.range n).map (fun i => hex2 (f i)))

/-! ### Little-endian readers and signed reinterpretation -/

/-- The hive image: byte at a given offset relative to `root`
(buffer base + 0x1000).  Total, mirroring the C code's absence of bounds
checks: every address yields some byte. -/
def Mem : Type := Int → Nat

/-- Signed reinterpretation of a 16-bit pattern (C `short`). -/
def sint16 (n : Nat) : Int := if n < 2 ^ 15 then (n : Int) else (n : Int) - 2 ^ 16

/-- Signed reinterpretation of a 32-bit pattern (C `int`). -/
def sint32 (n : Nat) : Int := if n < 2 ^ 31 then (n : Int) else (n : Int) - 2 ^ 32

/-- Signed reinterpretation of a 64-bit pattern (C `int64_t`). -/
def sint64 (n : Nat) : Int := if n < 2 ^ 63 then (n : Int) else (n : Int) - 2 ^ 64

/-- Little-endian 16-bit read from memory. -/
def le16 (m : Mem) (a : Int) : Nat := m a % 256 + 256 * (m (a + 1) % 256)

/-- Little-endian 32-bit read from memory. -/
def le32 (m : Mem) (a : Int) : Nat :=
  m a % 256 + 256 * (m (a + 1) % 256) + 65536 * (m (a + 2) % 256) +
    16777216 * (m (a + 3) % 256)

/-- Byte `i` of a materialized data buffer (`data[i]` on a `List Nat`). -/
def db (data : List Nat) (i : Nat) : Nat := data.getD i 0

/-- 16-bit code unit `i` of a data buffer (`((unsigned short*)data)[i]`). -/
def u16at (data : List Nat) (i : Nat) : Nat := db data (2 * i) + 256 * db data (2 * i + 1)

/-- Little-endian 32-bit value of the first 4 bytes of a data buffer. -/
def le32d (data : List Nat) : Nat :=
  db data 0 + 256 * db data 1 + 65536 * db data 2 + 16777216 * db data 3

/-- Little-endian 64-bit value of the first 8 bytes of a data buffer. -/
def le64d (data : List Nat) : Nat :=
  db data 0 + 256 * db data 1 + 65536 * db data 2 + 16777216 * db data 3 +
    4294967296 * db data 4 + 1099511627776 * db data 5 +
    281474976710656 * db data 6 + 72057594037927936 * db data 7

/-! ### `make_name`: the name decoder -/

/-- Encoding of one byte of a compressed name (`make_name`, `comp` branch):
printable ASCII is copied literally, anything else becomes `<XX>`. -/
def encByte (b : Nat) : String :=
  if printable b then charStr b else "<" ++ hex2 b ++ ">"

/-- Encoding of one UTF-16 code unit of an uncompressed name (`make_name`,
non-`comp` branch): printable ASCII is copied literally, anything else
becomes `<XX>` when the unit is below 0x100 and `<XXXX>` otherwise. -/
def encUnit (u : Nat) : String :=
  if printable u then charStr u
  else if u < 256 then "<" ++ hex2 u ++ ">" else "<" ++ hex4 u ++ ">"

/-- The compressed-name loop of `make_name`: `n` bytes starting at index `i`. -/
def compLoop (f : Nat → Nat) : Nat → Nat → String
  | _, 0 => ""
  | i, n + 1 => encByte (f i) ++ compLoop f (i + 1) n

/-- The uncompressed-name loop of `make_name`: `n` code units starting at index `i`. -/
def uncompLoop (f : Nat → Nat) : Nat → Nat → String
  | _, 0 => ""
  | i, n + 1 => encUnit (f i) ++ uncompLoop f (i + 1) n

/-- `make_name(out, in, len, comp)`: decodes `len` bytes (compressed) or
`len / 2` UTF-16LE code units (uncompressed) of a raw name into printable
text.  `raw` holds the raw name bytes. -/
def make_name (comp : Bool) (raw : List Nat) (len : Nat) : String :=
  if comp then compLoop (fun i => db raw i) 0 len
  else uncompLoop (fun i => db raw (2 * i) + 256 * db raw (2 * i + 1)) 0 (len / 2)

/-! ### Value type resolver (`walk`, lines 334–358) -/

/-- Effective type from the raw `vk` type code and the special-subtree
context, mirroring the `properties` / `driverpackages` branch of `walk`.
Constants:  `DEVPROP_TYPE_INT32 = 6`, `UINT32 = 7`, `INT64 = 8`,
`UINT64 = 9`, `FILETIME = 0x10`, `STRING = 0x12`, `STRING_INDIRECT = 0x19`,
`STRING_LIST = 0x2012`; `REG_DWORD = 4`, `REG_QWORD = 11`, `REG_SZ = 1`,
`REG_MULTI_SZ = 7`. -/
def resolveType (properties driverpackages : Bool) (raw : Nat) : Nat :=
  if properties && (raw &&& 0xFFFF0000 == 0xFFFF0000) then
    let lo := raw &&& 0xFFFF
    if lo == 6 || lo == 7 then 4
    else if lo == 8 || lo == 9 || lo == 0x10 then 11
    else if lo == 0x12 || lo == 0x19 then 1
    else if lo == 0x2012 then 7
    else raw
  else if driverpackages then raw &&& 0xFFFF
  else raw

/-! ### Value renderer (`walk`, lines 360–487)

Output tokens: a `printf`/`putchar` run becomes `Otok.text`, a call of
`print_time` becomes `Otok.time` recording the arguments passed to it. -/

inductive Otok where
  | time (t : Int) (full : Bool) (brackets : Bool)
  | text (s : String)
deriving DecidableEq, Repr

/-- The binary-looks-like-text heuristic (`walk`, lines 360–390).  Returns
the C `bintext` variable: 16 for the UTF-16 hypothesis, 8 for the ASCII
hypothesis, 0 when neither fires. -/
def computeBintext (type size : Nat) (data : List Nat) : Nat :=
  if (type == 3 || type == 0) && 8 ≤ size then
    if db data 1 == 0 && db data 3 == 0 then
      if printable (u16at data 0) && printable (u16at data 1) then
        let ascii := 2 * (2 + (List.range' 2 (size / 2 - 2)).countP
          (fun i => printable (u16at data i)))
        if size * 6 ≤ ascii * 8 then (if db data 1 == 0 then 16 else 8) else 0
      else 0
    else
      if printable (db data 0) && printable (db data 1) then
        let ascii := 2 + (List.range' 2 (size - 2)).countP (fun i => printable (db data i))
        if size * 7 ≤ ascii * 8 then (if db data 1 == 0 then 16 else 8) else 0
      else 0
  else 0

/-- `while (size > 0 && us[size-1] == '\0') --size;` — drop trailing zero
code units. -/
def trimZeros (us : Nat → Nat) : Nat → Nat
  | 0 => 0
  | n + 1 => if us n == 0 then trimZeros us n else n + 1

/-- Escape of a single code unit in string rendering (`printf("<%0*X>", ...)`). -/
def escUnit (u : Nat) : String :=
  if u < 256 then "<" ++ hex2 u ++ ">" else "<" ++ hex4 u ++ ">"

/-- The string rendering loop (`walk`, lines 453–466), over the index list
(called with `List.range sz`).  `multi` is `type == REG_MULTI_SZ`. -/
def strChunks (alls multi : Bool) (bintext : Nat) (us : Nat → Nat) (sz : Nat) :
    List Nat → List String
  | [] => []
  | i :: rest =>
    let u := us i
    if printable u then charStr u :: strChunks alls multi bintext us sz rest
    else if u == 0 && multi && decide (i + 1 < sz) && us (i + 1) != 0 then
      "<>" :: strChunks alls multi bintext us sz rest
    else if u == 0 && !alls && bintext == 0 then [" <...>"]
    else escUnit u :: strChunks alls multi bintext us sz rest

/-- The value rendering decision chain of `walk` (lines 360–487): everything
after the `path [type:size] = ` prefix of a value line, as a token list.
`type` is the effective (resolved) type, `size` the logical size, `data`
the materialized bytes.  Registry constants: `REG_NONE = 0`, `REG_SZ = 1`,
`REG_EXPAND_SZ = 2`, `REG_BINARY = 3`, `REG_DWORD = 4`, `REG_LINK = 6`,
`REG_MULTI_SZ = 7`, `REG_QWORD = 11`. -/
def renderValue (properties alls : Bool) (type size : Nat) (data : List Nat) : List Otok :=
  let bintext := computeBintext type size data
  if type == 4 && size == 4 then
    [.text ("0x" ++ hexU (le32d data) ++ " (" ++ toString (sint32 (le32d data)) ++ ")")]
  else if properties && size == 1 && type == 0xFFFF0011 then
    if db data 0 == 255 then [.text "true"]
    else if db data 0 == 0 then [.text "false"]
    else [.text (hex2 (db data 0))]
  else if properties && size == 2 && (type == 0xFFFF0005 || type == 0xFFFF0004) then
    if type &&& 0xFFFF == 5 then
      [.text ("0x" ++ hexU (u16at data 0) ++ " (" ++ toString (u16at data 0) ++ ")")]
    else
      [.text ("0x" ++ hexU (u16at data 0) ++ " (" ++ toString (sint16 (u16at data 0)) ++ ")")]
  else if size == 8 && (type == 11 || type == 3 || type == 0) &&
      decide (126227808000000000 ≤ sint64 (le64d data)) &&
      decide (sint64 (le64d data) < 157784544000000000) then
    if type == 11 then
      [.time (sint64 (le64d data)) false false,
       .text (" (0x" ++ hexU (le64d data) ++ "; " ++ toString (sint64 (le64d data)) ++ ")")]
    else
      [.time (sint64 (le64d data)) false false,
       .text (" (" ++ hexPairs (db data) size ++ ")")]
  else if type == 11 && size == 8 then
    [.text ("0x" ++ hexU (le64d data) ++ " (" ++ toString (sint64 (le64d data)) ++ ")")]
  else if type == 1 || type == 7 || type == 2 || type == 6 || bintext == 16 then
    let sz0 := size / 2
    let sz := if bintext == 0 then trimZeros (u16at data) sz0 else sz0
    [.text (String.join (strChunks alls (type == 7) bintext (u16at data) sz (List.range sz)))]
  else if bintext != 0 then
    [.text (String.join ((List.range size).map
      (fun i => if printable (db data i) then charStr (db data i)
                else "<" ++ hex2 (db data i) ++ ">")))]
  else
    [.text (hexPairs (db data) size)]

/-- `true` iff a token list begins with a `print_time` call (a rendered
local date/time). -/
def startsWithTime : List Otok → Bool
  | .time _ _ _ :: _ => true
  | _ => false

/-! ### Value cells and the data materializer (`walk`, lines 299–332)

`vk` layout (offsets from the cell start): `block_size` 0, `block_type` 4,
`name_len` 6, `size` 8, `offset` 12, `value_type` 16, `flags` 20, `name` 24. -/

/-- Raw `size` field of a `vk` cell at offset `off`. -/
def vkSizeField (m : Mem) (off : Int) : Nat := le32 m (off + 8)

/-- `val->size & (1 << 31)` — data stored inline in the offset field. -/
def vkInline (m : Mem) (off : Int) : Bool := vkSizeField m off &&& 0x80000000 != 0

/-- `size = val->size & 0x7fffffff` — the logical data length used for
rendering. -/
def vkLogicalSize (m : Mem) (off : Int) : Nat := vkSizeField m off &&& 0x7FFFFFFF

/-- The data pointer chosen by `walk`: the address of the 4-byte `offset`
field itself when inline, else 4 bytes past the cell at `offset + root`. -/
def vkDataAddr (m : Mem) (off : Int) : Int :=
  if vkInline m off then off + 12 else sint32 (le32 m (off + 12)) + 4

/-- `n` bytes of memory starting at `a` (a `memcpy` source / rendering view). -/
def readBytes (m : Mem) (a : Int) (n : Nat) : List Nat :=
  (List.range n).map (fun (j : Nat) => m (a + (j : Int)))

/-- `big_data = (regf->major_version > 1 || regf->minor_version > 3)`
(`main`, line 640). -/
def big_data_flag (major minor : Int) : Bool := major > 1 || minor > 3

/-- The big-data qualification of `walk` line 313, evaluated on a
non-inline value: `size > 16344 && big_data && *data == 'd' && data[1] == 'b'`
(`'d'` = 100, `'b'` = 98), where `a` is the data address. -/
def usesBigData (size : Nat) (bd : Bool) (m : Mem) (a : Int) : Bool :=
  decide (16344 < size) && bd && (m a == 100) && (m (a + 1) == 98)

/-- `(left > 16344) ? 16344 : left` — bytes copied from one big-data segment. -/
def segLen (left : Int) : Int := if 16344 < left then 16344 else left

/-- The sequence of `memcpy` lengths performed by the big-data loop for a
given segment count and initial `left = size`. -/
def segCopyLens : Nat → Int → List Int
  | 0, _ => []
  | n + 1, left => segLen left :: segCopyLens n (left - 16344)

/-- The per-segment byte chunks copied by the big-data loop: segment `i`'s
offset is read from the offset list at `dl` (an `offsets` cell: `block_size`
then the offsets), and its data starts 4 bytes past the segment cell. -/
def assembleChunks (m : Mem) (dl : Int) : Nat → Nat → Int → List (List Nat)
  | 0, _, _ => []
  | n + 1, i, left =>
    readBytes m (sint32 (le32 m (dl + 4 + 4 * i)) + 4) (segLen left).toNat ::
      assembleChunks m dl n (i + 1) (left - 16344)

/-- Segment count stored in the `db` cell governing the data at address `a`
(the `list_block` starts at `a - 4`; its `count` field is the 16-bit value
at offset 6). -/
def dbSegCount (m : Mem) (a : Int) : Nat := (sint16 (le16 m (a - 4 + 6))).toNat

/-- The reassembled big-data buffer for the data region at `a`
(`walk`, lines 315–330): resolve the offset list from the `db` cell's first
entry, then copy the segments in order into a fresh buffer of `size` bytes. -/
def assembleBigData (m : Mem) (a : Int) (size : Nat) : List Nat :=
  (assembleChunks m (sint32 (le32 m (a - 4 + 8))) (dbSegCount m a) 0 (size : Int)).flatten

/-! ### Subkey list traversal (`walk`, lines 500–523)

`list_block` layout: `block_size` 0, `block_type` 4–5, `count` 6,
`offsets[i]` at 8 + 4·i.  Tag bytes: `'l'` = 108, `'i'` = 105. -/

/-- `item->count` as used by the loops (`short` compared against `int i`;
a negative count runs zero iterations). -/
def listCount (m : Mem) (off : Int) : Nat := (sint16 (le16 m (off + 6))).toNat

/-- `int ii = (item->block_type[1] == 'i') ? 1 : 2;` — element stride of a
leaf subkey list in 32-bit units. -/
def leafStride (m : Mem) (off : Int) : Nat := if m (off + 5) == 105 then 1 else 2

/-- Child key-cell offsets visited for a direct leaf list (`lf`/`lh`/`li`):
`item->offsets[i*ii]` for `i < count`. -/
def leafChildren (m : Mem) (off : Int) : List Int :=
  (List.range (listCount m off)).map
    (fun i => sint32 (le32 m (off + 8 + 4 * (i * leafStride m off))))

/-- Modelled from the spec: the leaf-list traversal as the specification
sentence states it, with element stride 2 for second-tag-char `'i'` lists
and stride 1 for hashed entries — for comparison with `leafChildren`. -/
def leafChildrenSpec (m : Mem) (off : Int) : List Int :=
  (List.range (listCount m off)).map
    (fun i => sint32 (le32 m (off + 8 + 4 * (i * (if m (off + 5) == 105 then 2 else 1)))))

/-- Child key-cell offsets visited from a key's subkey list: a direct leaf
list when the first tag byte is `'l'`, otherwise (`ri`) one level of
indirection through further leaf lists. -/
def subkeyChildren (m : Mem) (off : Int) : List Int :=
  if m (off + 4) == 108 then leafChildren m off
  else (List.range (listCount m off)).flatMap
    (fun i => leafChildren m (sint32 (le32 m (off + 8 + 4 * i))))

/-! ### The tree walker (`walk`, lines 236–537)

The walker is embedded over the decoded key tree: a key cell becomes a
`KeyTree` node (name bytes, compressed flag, timestamp, decoded value
records, subkey forest), and `walk`'s state — the two static context
booleans, the shared path buffer `path`/`full`, and the stream of printed
lines — is threaded explicitly.  A value record carries its materialized
data bytes (the memory-level materializer is modelled separately above). -/

/-- The command-line switches consumed by the core. -/
structure Config where
  hex_type : Bool
  only_values : Bool
  only_keys : Bool
  all_string : Bool
  time_sec : Bool
  time_full : Bool
deriving DecidableEq, Repr

/-- The two static special-subtree context booleans of `walk`. -/
structure Flags where
  properties : Bool
  driverpackages : Bool
deriving DecidableEq, Repr

/-- The `leave_key` pointer of `walk`: which flag (if any) this call set. -/
inductive LK where
  | noflag
  | props
  | dp
deriving DecidableEq, Repr

/-- Byte values of the literal `"Properties"` (10 bytes). -/
def propsBytes : List Nat := [80, 114, 111, 112, 101, 114, 116, 105, 101, 115]

/-- Byte values of the literal `"DriverPackages"` (14 bytes). -/
def dpBytes : List Nat := [68, 114, 105, 118, 101, 114, 80, 97, 99, 107, 97, 103, 101, 115]

/-- The flag-activation block of `walk` (lines 260–275): each flag is set
only when not already set and the key's raw name bytes match the literal;
`leave_key` records the flag this call set. -/
def enterKey (fl : Flags) (name : List Nat) : Flags × LK :=
  let s1 : Bool × LK :=
    if !fl.properties && name = propsBytes then (true, LK.props)
    else (fl.properties, LK.noflag)
  let s2 : Bool × LK :=
    if !fl.driverpackages && name = dpBytes then (true, LK.dp)
    else (fl.driverpackages, s1.2)
  (⟨s1.1, s2.1⟩, s2.2)

/-- `if (leave_key) *leave_key = FALSE;` (`walk`, lines 535–536). -/
def clearLK (fl : Flags) : LK → Flags
  | .noflag => fl
  | .props => ⟨false, fl.driverpackages⟩
  | .dp => ⟨fl.properties, false⟩

/-- A decoded `vk` record as consumed by the value loop: raw name bytes,
the `VALUE_COMP_NAME` flag, the raw `size` field, the raw type code, and
the materialized data bytes. -/
structure VRec where
  name : List Nat
  comp : Bool
  sizeField : Nat
  vtype : Nat
  data : List Nat

mutual
inductive KeyTree where
  | node (name : List Nat) (comp : Bool) (stamp : Int) (values : List VRec)
      (subs : KeyForest)
inductive KeyForest where
  | nil
  | cons (k : KeyTree) (rest : KeyForest)
end

/-- `item->count == 0` / `subkeys == -1`: no child entries. -/
def KeyForest.isNil : KeyForest → Bool
  | .nil => true
  | .cons _ _ => false

/-- Write one byte into the shared path buffer. -/
def wr (buf : Nat → Nat) (i v : Nat) : Nat → Nat :=
  fun j => if j = i then v else buf j

/-- Write a list of character codes at consecutive positions, returning the
updated buffer and the position one past the last character. -/
def writeChars (buf : Nat → Nat) (p : Nat) : List Nat → (Nat → Nat) × Nat
  | [] => (buf, p)
  | c :: rest => writeChars (wr buf p c) (p + 1) rest

/-- Character codes of a decoded string (what `make_name` stores into the
path buffer). -/
def strCodes (s : String) : List Nat := s.toList.map Char.toNat

/-- `make_name` writing into the path buffer: the decoded characters
followed by the terminating `'\0'`; returns the buffer and the position of
the terminator (the pointer `make_name` returns). -/
def writeName (buf : Nat → Nat) (p : Nat) (cs : List Nat) : (Nat → Nat) × Nat :=
  let r := writeChars buf p cs
  (wr r.1 r.2 0, r.2)

/-- The buffer contents printed by `printf("%s", full)`: bytes 0 to `n`. -/
def bufSlice (buf : Nat → Nat) (n : Nat) : List Nat := (List.range n).map buf

/-- One printed line.  `keyOnly` is the unconditional `-k` key line,
`value` a value line (timestamp when `-t`/`-T`, full path, raw type and
logical size as printed in the brackets, rendered tokens), `emptyKey` the
trailing line for a key that stayed empty. -/
inductive Line where
  | keyOnly (stamp : Int) (path : List Nat)
  | value (stamp : Option Int) (path : List Nat) (vtype size : Nat) (toks : List Otok)
  | emptyKey (stamp : Option Int) (path : List Nat)

/-- The state threaded through `walk`: context flags, path buffer, output. -/
structure WState where
  flags : Flags
  buf : Nat → Nat
  out : List Line

/-- One iteration of the value loop of `walk` (lines 281–494): write
`/name` (or `/@` for an empty name) after the key path at `pend`, resolve
the effective type, render, and emit the line. -/
def doValue (cfg : Config) (stamp : Int) (pend : Nat) (st : WState) (v : VRec) : WState :=
  let buf1 := wr st.buf pend 47
  let r : (Nat → Nat) × Nat :=
    if v.name.length == 0 then (wr (wr buf1 (pend + 1) 64) (pend + 2) 0, pend + 2)
    else writeName buf1 (pend + 1) (strCodes (make_name v.comp v.name v.name.length))
  let rsize := v.sizeField &&& 0x7FFFFFFF
  let t := resolveType st.flags.properties st.flags.driverpackages v.vtype
  let toks := renderValue st.flags.properties cfg.all_string t rsize v.data
  let tm : Option Int := if cfg.time_sec || cfg.time_full then some stamp else none
  { st with buf := r.1,
            out := st.out ++ [Line.value tm (bufSlice r.1 r.2) v.vtype rsize toks] }

mutual
/-- The recursive tree walker (`walk`): append `/name` to the path at
`pos`, handle `-k` mode, enter special-subtree context, print the values,
recurse into the children at the new path end, emit the empty-key line if
the key stayed empty, and clear the flag this call set. -/
def walk (cfg : Config) (st : WState) (pos : Nat) : KeyTree → WState
  | .node name comp stamp values subs =>
    let buf1 := wr st.buf pos 47
    let r := writeName buf1 (pos + 1) (strCodes (make_name comp name name.length))
    if cfg.only_keys then
      let st1 : WState :=
        { st with buf := r.1, out := st.out ++ [Line.keyOnly stamp (bufSlice r.1 r.2)] }
      walkForest cfg st1 r.2 subs
    else
      let e := enterKey st.flags name
      let st1 : WState := { st with flags := e.1, buf := r.1 }
      let st2 := values.foldl (doValue cfg stamp r.2) st1
      let st3 := walkForest cfg st2 r.2 subs
      let tm : Option Int := if cfg.time_sec || cfg.time_full then some stamp else none
      let st4 : WState :=
        if values.length == 0 && subs.isNil && !cfg.only_values then
          { st3 with out := st3.out ++ [Line.emptyKey tm (bufSlice st3.buf r.2)] }
        else st3
      { st4 with flags := clearLK st4.flags e.2 }
/-- Sequential traversal of a subkey forest (the child loops of `walk`). -/
def walkForest (cfg : Config) (st : WState) (pos : Nat) : KeyForest → WState
  | .nil => st
  | .cons k rest => walkForest cfg (walk cfg st pos k) pos rest
end

/-- Default mode: no command-line switches. -/
def defaultConfig : Config := ⟨false, false, false, false, false, false⟩

/-- `-v`: values only. -/
def valuesOnlyConfig : Config := ⟨false, true, false, false, false, false⟩

/-! ### Concrete instances used by counterexamples and witnesses -/

/-- A concrete `li` leaf list at offset 0: tag `l`,`i`, count 2, offsets 1
and 2 stored consecutively at byte offsets 8 and 12. -/
def mLi : Mem := fun a =>
  if a = 4 then 108 else if a = 5 then 105 else if a = 6 then 2
  else if a = 8 then 1 else if a = 12 then 2 else 0

/-- A concrete `vk` cell at offset 0 whose `size` field is `0x80000008`
(inline flag set, logical size 8), offset-field bytes `AA BB CC DD`, and
`value_type` field bytes `01 02 03 04`. -/
def mC6 : Mem := fun a =>
  if a = 8 then 8 else if a = 11 then 128
  else if a = 12 then 170 else if a = 13 then 187 else if a = 14 then 204 else if a = 15 then 221
  else if a = 16 then 1 else if a = 17 then 2 else if a = 18 then 3 else if a = 19 then 4 else 0

/-- A small walker state for witnesses: clear flags, a constant buffer,
no output yet. -/
def demoSt : WState := ⟨⟨false, false⟩, fun _ => 7, []⟩

/-- A small key tree for witnesses: one key named `AB`, no values, no
subkeys. -/
def demoKey : KeyTree := .node [65, 66] true 0 [] .nil

/-- Offset-list memory for a big-data reassembly witness: the `db` cell
for data address 4 sits at 0, with count 3 at byte offset 6. -/
def mBd : Mem := fun x => if x = 6 then 3 else 0

/-- Memory whose data region at 0 carries the `db` tag bytes. -/
def mDb : Mem := fun x => if x = 0 then 100 else if x = 1 then 98 else 0

/-! ## Helper lemmas -/

theorem sjoin_cons (s : String) (l : List String) : String.join (s :: l) = s ++ String.join l := by
  apply String.ext
  simp

theorem compLoop_eq (f : Nat → Nat) : ∀ n i : Nat,
    compLoop f i n = String.join ((List.range' i n).map (fun j => encByte (f j))) := by
  intro n
  induction n with
  | zero => intro i; rfl
  | succ n ih =>
    intro i
    rw [List.range'_succ]
    simp only [List.map_cons, sjoin_cons, compLoop, ih]

theorem uncompLoop_eq (f : Nat → Nat) : ∀ n i : Nat,
    uncompLoop f i n = String.join ((List.range' i n).map (fun j => encUnit (f j))) := by
  intro n
  induction n with
  | zero => intro i; rfl
  | succ n ih =>
    intro i
    rw [List.range'_succ]
    simp only [List.map_cons, sjoin_cons, uncompLoop, ih]

/-! ## C3 — value type resolution -/

/-- C3: the effective type is resolved from the raw type code by the
device-property mapping when device-property scope is active and the upper
16 bits are all set (unmapped device codes pass through unchanged); by
masking off the upper 16 bits when only driver-package scope applies (in
particular raw `0x00010001` resolves to SZ = 1); and unchanged otherwise —
i.e. whenever driver-package scope is inactive and the device branch did
not apply, including device scope active on a raw code whose upper 16 bits
are not all set.  Device-property scope takes precedence when both scopes
are active (the mapping applies for every value of the driver-package
flag). -/
theorem resolveType_spec :
    (∀ dp : Bool,
      resolveType true dp 0xFFFF0006 = 4 ∧ resolveType true dp 0xFFFF0007 = 4 ∧
      resolveType true dp 0xFFFF0008 = 11 ∧ resolveType true dp 0xFFFF0009 = 11 ∧
      resolveType true dp 0xFFFF0010 = 11 ∧ resolveType true dp 0xFFFF0012 = 1 ∧
      resolveType true dp 0xFFFF0019 = 1 ∧ resolveType true dp 0xFFFF2012 = 7)
    ∧ (∀ (dp : Bool) (raw : Nat), raw &&& 0xFFFF0000 = 0xFFFF0000 →
        raw &&& 0xFFFF ≠ 6 → raw &&& 0xFFFF ≠ 7 → raw &&& 0xFFFF ≠ 8 → raw &&& 0xFFFF ≠ 9 →
        raw &&& 0xFFFF ≠ 0x10 → raw &&& 0xFFFF ≠ 0x12 → raw &&& 0xFFFF ≠ 0x19 →
        raw &&& 0xFFFF ≠ 0x2012 → resolveType true dp raw = raw)
    ∧ (∀ (props : Bool) (raw : Nat), ¬(props = true ∧ raw &&& 0xFFFF0000 = 0xFFFF0000) →
        resolveType props true raw = raw &&& 0xFFFF)
    ∧ resolveType false true 0x00010001 = 1
    ∧ (∀ (props : Bool) (raw : Nat), ¬(props = true ∧ raw &&& 0xFFFF0000 = 0xFFFF0000) →
        resolveType props false raw = raw) := by
  have hcond : ∀ (props : Bool) (raw : Nat),
      ¬(props = true ∧ raw &&& 0xFFFF0000 = 0xFFFF0000) →
      (props && (raw &&& 0xFFFF0000 == 0xFFFF0000)) = false := by
    intro props raw h
    cases props with
    | false => simp
    | true =>
      have hm : ¬raw &&& 0xFFFF0000 = 0xFFFF0000 := fun hx => h ⟨rfl, hx⟩
      simp [hm]
  refine ⟨by decide, ?_, ?_, by decide, ?_⟩
  · intro dp raw h h6 h7 h8 h9 h16 h18 h25 h8210
    simp [resolveType, h, h6, h7, h8, h9, h16, h18, h25, h8210]
  · intro props raw h
    simp [resolveType, hcond props raw h]
  · intro props raw h
    simp [resolveType, hcond props raw h]

/-- C3 witness: the resolver at concrete inputs via `resolveType_spec`,
including the pass-through of a plain SZ code inside an active
device-property scope. -/
theorem resolveType_spec_inst :
    resolveType true true 0xFFFF0006 = 4 ∧ resolveType true true 0xFFFF0001 = 0xFFFF0001 ∧
    resolveType false true 0x00010001 = 0x00010001 &&& 0xFFFF ∧
    resolveType true false 1 = 1 ∧ resolveType false false 7 = 7 := by
  refine ⟨(resolveType_spec.1 true).1, ?_, ?_, ?_, ?_⟩
  · exact resolveType_spec.2.1 true 0xFFFF0001 (by decide) (by decide) (by decide) (by decide)
      (by decide) (by decide) (by decide) (by decide) (by decide)
  · exact resolveType_spec.2.2.1 false 0x00010001 (by simp)
  · exact resolveType_spec.2.2.2.2 true 1 (by decide)
  · exact resolveType_spec.2.2.2.2 false 7 (by simp)

/-! ## C8 — empty keys emit exactly one line in default mode, none with `-v` -/

/-- C8: a key with zero values and zero subkeys emits in default mode
exactly one output line — its empty-key line (no timestamp, path up to the
end of the key's decoded name) — and in values-only mode emits no line at
all. -/
theorem empty_key_line_count :
    ∀ (name : List Nat) (comp : Bool) (stamp : Int) (pos : Nat) (st : WState),
      (walk defaultConfig st pos (KeyTree.node name comp stamp [] KeyForest.nil)).out
          = st.out ++ [Line.emptyKey none (bufSlice
              (writeName (wr st.buf pos 47) (pos + 1)
                (strCodes (make_name comp name name.length))).1
              (writeName (wr st.buf pos 47) (pos + 1)
                (strCodes (make_name comp name name.length))).2)]
      ∧ (walk valuesOnlyConfig st pos (KeyTree.node name comp stamp [] KeyForest.nil)).out
          = st.out := by
  intro name comp stamp pos st
  constructor
  · simp [walk, walkForest, defaultConfig, KeyForest.isNil]
  · simp [walk, walkForest, valuesOnlyConfig, KeyForest.isNil]

/-! ## C9 — the name decoder -/

/-- C9: every name byte (compressed) or UTF-16LE code unit (uncompressed,
`len / 2` of them) in `[32, 126]` is emitted literally; every other byte
becomes `<XX>` with two hex digits, every other unit `<XX>` when below
0x100 and `<XXXX>` otherwise; `make_name` is exactly the concatenation of
these per-element encodings. -/
theorem make_name_roundtrip :
    (∀ b : Nat, (32 ≤ b ∧ b ≤ 126 → encByte b = charStr b)
      ∧ (¬(32 ≤ b ∧ b ≤ 126) → encByte b = "<" ++ hex2 b ++ ">"))
    ∧ (∀ u : Nat, (32 ≤ u ∧ u ≤ 126 → encUnit u = charStr u)
      ∧ (¬(32 ≤ u ∧ u ≤ 126) → u < 256 → encUnit u = "<" ++ hex2 u ++ ">")
      ∧ (¬(32 ≤ u ∧ u ≤ 126) → 256 ≤ u → encUnit u = "<" ++ hex4 u ++ ">"))
    ∧ (∀ b : Nat, (hex2 b).length = 2)
    ∧ (∀ u : Nat, (hex4 u).length = 4)
    ∧ (∀ (raw : List Nat) (len : Nat),
        make_name true raw len = String.join ((List.range len).map (fun i => encByte (db raw i))))
    ∧ (∀ (raw : List Nat) (len : Nat),
        make_name false raw len = String.join ((List.range (len / 2)).map
          (fun i => encUnit (db raw (2 * i) + 256 * db raw (2 * i + 1))))) := by
  refine ⟨?_, ?_, ?_, ?_, ?_, ?_⟩
  · intro b
    constructor
    · intro h
      have hp : printable b = true := by simp [printable]; omega
      simp [encByte, hp]
    · intro h
      have hp : printable b = false := by simp [printable]; omega
      simp [encByte, hp]
  · intro u
    refine ⟨?_, ?_, ?_⟩
    · intro h
      have hp : printable u = true := by simp [printable]; omega
      simp [encUnit, hp]
    · intro h hlt
      have hp : printable u = false := by simp [printable]; omega
      simp [encUnit, hp, hlt]
    · intro h hge
      have hp : printable u = false := by simp [printable]; omega
      have : ¬u < 256 := by omega
      simp [encUnit, hp, this]
  · intro b; rfl
  · intro u; rfl
  · intro raw len
    rw [make_name, if_pos rfl, compLoop_eq, List.range_eq_range']
  · intro raw len
    rw [make_name, if_neg (by simp), uncompLoop_eq, List.range_eq_range']

/-! ## C5 — subkey list strides -/

/-- C5 counterexample: the code walks an `li` list with stride 1 (offsets
1 and 2), not with stride 2 as the claim states (`leafChildrenSpec`, the
claim's traversal, would read offsets 1 and 0 instead). -/
theorem leaf_stride_cex :
    leafChildren mLi 0 = [1, 2] ∧ leafChildrenSpec mLi 0 = [1, 0] ∧
    leafChildrenSpec mLi 0 ≠ leafChildren mLi 0 := by decide

/-- C5 amended: leaf subkey lists are read with element stride 1 (in 32-bit
units) when the second tag character is `'i'` (`li`, and the sub-lists of
`ri`), and stride 2 when it is not (`lf`/`lh` hashed entries); an `ri` list
(first tag byte not `'l'`) is one level of indirection whose entries point
to further leaf lists traversed the same way. -/
theorem leaf_stride_amended :
    (∀ (m : Mem) (off : Int), m (off + 5) = 105 →
      leafChildren m off =
        (List.range (listCount m off)).map (fun i => sint32 (le32 m (off + 8 + 4 * i))))
    ∧ (∀ (m : Mem) (off : Int), m (off + 5) ≠ 105 →
      leafChildren m off =
        (List.range (listCount m off)).map (fun i => sint32 (le32 m (off + 8 + 8 * i))))
    ∧ (∀ (m : Mem) (off : Int), m (off + 4) = 108 → subkeyChildren m off = leafChildren m off)
    ∧ (∀ (m : Mem) (off : Int), m (off + 4) ≠ 108 →
      subkeyChildren m off = (List.range (listCount m off)).flatMap
        (fun i => leafChildren m (sint32 (le32 m (off + 8 + 4 * i))))) := by
  refine ⟨?_, ?_, ?_, ?_⟩
  · intro m off h
    have hs : leafStride m off = 1 := by simp [leafStride, h]
    simp only [leafChildren, hs]
    congr 1
    funext i
    norm_num
  · intro m off h
    have hs : leafStride m off = 2 := by simp [leafStride, h]
    simp only [leafChildren, hs]
    congr 1
    funext i
    push_cast
    ring_nf
  · intro m off h
    simp [subkeyChildren, h]
  · intro m off h
    simp [subkeyChildren, h]

/-- C5 witness: the amended traversal at the concrete `li` list `mLi`. -/
theorem leaf_stride_amended_inst :
    leafChildren mLi 0 =
      (List.range (listCount mLi 0)).map (fun i => sint32 (le32 mLi (0 + 8 + 4 * i))) ∧
    subkeyChildren mLi 0 = leafChildren mLi 0 :=
  ⟨leaf_stride_amended.1 mLi 0 (by decide), leaf_stride_amended.2.2.1 mLi 0 (by decide)⟩

/-! ## C6 — inline value data -/

/-- C6 counterexample: for an inline value with stored size `0x80000008`
the logical length used for rendering is 8, not capped at 4 — the rendered
output consumes 8 bytes, running past the 4-byte offset field into the
`value_type` field bytes. -/
theorem inline_cap_cex :
    vkInline mC6 0 = true ∧ vkLogicalSize mC6 0 = 8 ∧ ¬vkLogicalSize mC6 0 ≤ 4 ∧
    readBytes mC6 (vkDataAddr mC6 0) (vkLogicalSize mC6 0) = [170, 187, 204, 221, 1, 2, 3, 4] ∧
    renderValue false false 3 (vkLogicalSize mC6 0)
        (readBytes mC6 (vkDataAddr mC6 0) (vkLogicalSize mC6 0))
      = [Otok.text "AA,BB,CC,DD,01,02,03,04"] ∧
    Otok.text "AA,BB,CC,DD,01,02,03,04" ≠ Otok.text "AA,BB,CC,DD" := by decide

/-- C6 amended: when bit 31 of the size field is set, the data pointer is
the value cell's own 4-byte offset field (its 4 raw bytes), and the logical
length used for rendering is the size with bit 31 cleared, with no cap at 4
(reads past 4 bytes continue into the following cell bytes). -/
theorem inline_data_amended :
    ∀ (m : Mem) (off : Int), vkInline m off = true →
      vkDataAddr m off = off + 12
      ∧ readBytes m (vkDataAddr m off) 4 = [m (off + 12), m (off + 13), m (off + 14), m (off + 15)]
      ∧ vkLogicalSize m off = vkSizeField m off % 2 ^ 31 := by
  intro m off h
  have hd : vkDataAddr m off = off + 12 := by rw [vkDataAddr, if_pos h]
  refine ⟨hd, ?_, ?_⟩
  · rw [hd, readBytes]
    norm_num [List.range_succ]
    exact ⟨congrArg m (by ring), congrArg m (by ring), congrArg m (by ring)⟩
  · have h31 : (0x7FFFFFFF : Nat) = 2 ^ 31 - 1 := by norm_num
    rw [vkLogicalSize, h31, Nat.and_pow_two_sub_one_eq_mod]

/-- C6 witness: the amended materializer facts at the concrete cell `mC6`. -/
theorem inline_data_amended_inst :
    vkDataAddr mC6 0 = 0 + 12
    ∧ readBytes mC6 (vkDataAddr mC6 0) 4
        = [mC6 (0 + 12), mC6 (0 + 13), mC6 (0 + 14), mC6 (0 + 15)]
    ∧ vkLogicalSize mC6 0 = vkSizeField mC6 0 % 2 ^ 31 :=
  inline_data_amended mC6 0 (by decide)

/-! ## C1 — big-data qualification and reassembly -/

theorem segCopyLens_shape : ∀ (k : Nat) (left : Int), 16344 * k < left →
    left ≤ 16344 * (k + 1 : Nat) →
    segCopyLens (k + 1) left = List.replicate k 16344 ++ [left - 16344 * k] := by
  intro k
  induction k with
  | zero =>
    intro left h1 h2
    simp only [segCopyLens, segLen]
    rw [if_neg (by push_cast at h2; omega)]
    norm_num
  | succ k ih =>
    intro left h1 h2
    have hgt : (16344 : Int) < left := by push_cast at h1; omega
    simp only [segCopyLens, segLen] at ih ⊢
    rw [if_pos hgt, ih (left - 16344) (by push_cast at h1 ⊢; omega) (by push_cast at h2 ⊢; omega),
      List.replicate_succ, List.cons_append]
    congr 3
    push_cast
    ring

theorem assembleChunks_lens (m : Mem) (dl : Int) : ∀ (n i : Nat) (left : Int),
    (assembleChunks m dl n i left).map List.length = (segCopyLens n left).map Int.toNat := by
  intro n
  induction n with
  | zero => intro i left; rfl
  | succ n ih =>
    intro i left
    simp only [assembleChunks, segCopyLens, List.map_cons]
    rw [ih]
    congr 1
    simp only [readBytes, List.length_map, List.length_range]

/-- C1: for a non-inline value, big-data handling is used exactly when the
logical size exceeds 16344, the hive version indicates big-data support
(`major > 1` or `minor > 3`), and the data region starts with the tag
`db`; and for a logical size `S` whose `db` cell lists
`n = ceil(S / 16344)` segments, the loop copies 16344 bytes from each of
the first `n - 1` segments and exactly `S - 16344 * (n - 1)` bytes from
the last, filling the `S`-byte buffer completely. -/
theorem bigData_exact :
    (∀ (size : Nat) (maj minr : Int) (m : Mem) (a : Int),
      usesBigData size (big_data_flag maj minr) m a = true ↔
        (16344 < size ∧ (1 < maj ∨ 3 < minr) ∧ m a = 100 ∧ m (a + 1) = 98))
    ∧ (∀ (S : Nat) (m : Mem) (a : Int), 16344 < S →
        dbSegCount m a = (S + 16343) / 16344 →
        segCopyLens (dbSegCount m a) (S : Int) =
          List.replicate ((S + 16343) / 16344 - 1) 16344 ++
            [(S : Int) - 16344 * (((S + 16343) / 16344 - 1 : Nat) : Int)]
        ∧ (assembleBigData m a S).length = S) := by
  constructor
  · intro size maj minr m a
    simp [usesBigData, big_data_flag, and_assoc]
  · intro S m a hS hc
    have h2 : 2 ≤ (S + 16343) / 16344 := by omega
    have hlow : 16344 * ((S + 16343) / 16344 - 1) < S := by omega
    have hhigh : S ≤ 16344 * ((S + 16343) / 16344) := by omega
    have hk : (S + 16343) / 16344 - 1 + 1 = (S + 16343) / 16344 := by omega
    have hshape : segCopyLens ((S + 16343) / 16344) (S : Int) =
        List.replicate ((S + 16343) / 16344 - 1) 16344 ++
          [(S : Int) - 16344 * (((S + 16343) / 16344 - 1 : Nat) : Int)] := by
      rw [← hk]
      exact segCopyLens_shape _ (S : Int) (by omega) (by rw [hk]; push_cast; omega)
    refine ⟨by rw [hc]; exact hshape, ?_⟩
    rw [assembleBigData, List.length_flatten, assembleChunks_lens, hc, hshape]
    simp only [List.map_append, List.map_replicate, List.sum_append, List.sum_replicate,
      smul_eq_mul, List.map_cons, List.map_nil, List.sum_cons, List.sum_nil,
      show ((16344 : Int)).toNat = 16344 from rfl]
    omega

/-- C1 witness: the qualification at a concrete `db`-tagged region and the
reassembled length for `S = 32689` with 3 segments, via `bigData_exact`. -/
theorem bigData_exact_inst :
    usesBigData 16345 (big_data_flag 2 0) mDb 0 = true ∧
    (assembleBigData mBd 4 32689).length = 32689 :=
  ⟨(bigData_exact.1 16345 2 0 mDb 0).mpr
      ⟨by norm_num, Or.inl (by norm_num), by decide, by decide⟩,
    (bigData_exact.2 32689 mBd 4 (by norm_num) (by decide)).2⟩

/-! ## C4 — trailing zero code units in string rendering -/

theorem trimZeros_le (us : Nat → Nat) : ∀ n, trimZeros us n ≤ n := by
  intro n
  induction n with
  | zero => exact le_refl _
  | succ n ih =>
    simp only [trimZeros]
    split
    · exact le_trans ih (Nat.le_succ n)
    · exact le_refl _

theorem trimZeros_congr (us1 us2 : Nat → Nat) : ∀ n, (∀ i, i < n → us1 i = us2 i) →
    trimZeros us1 n = trimZeros us2 n := by
  intro n
  induction n with
  | zero => intro _; rfl
  | succ n ih =>
    intro h
    simp only [trimZeros]
    rw [h n (Nat.lt_succ_self n)]
    split
    · exact ih (fun i hi => h i (Nat.lt_succ_of_lt hi))
    · rfl

theorem strChunks_congr (alls multi : Bool) (b : Nat) (us1 us2 : Nat → Nat) (sz : Nat)
    (hus : ∀ i, i < sz → us1 i = us2 i) :
    ∀ l : List Nat, (∀ i ∈ l, i < sz) →
      strChunks alls multi b us1 sz l = strChunks alls multi b us2 sz l := by
  intro l
  induction l with
  | nil => intro _; rfl
  | cons i rest ih =>
    intro hl
    have hi : i < sz := hl i (List.mem_cons_self i rest)
    have hu : us1 i = us2 i := hus i hi
    have hrest : ∀ j ∈ rest, j < sz := fun j hj => hl j (List.mem_cons_of_mem i hj)
    have hcond : (us1 i == 0 && multi && decide (i + 1 < sz) && us1 (i + 1) != 0)
        = (us2 i == 0 && multi && decide (i + 1 < sz) && us2 (i + 1) != 0) := by
      by_cases h1 : i + 1 < sz
      · rw [hu, hus (i + 1) h1]
      · simp [h1]
    simp only [strChunks]
    rw [hcond, hu, ih hrest]

/-- C4 counterexample: for the MULTI_SZ code-unit sequence `A,0,B,0,0`
(bytes `41 00 00 00 42 00 00 00 00 00`, size 10) the output in
non-full-string mode is `A<>B`, not `A<>B <...>`: the trailing zero units
are dropped before the loop ever reaches a zero unit. -/
theorem multiSz_trailing_cex :
    renderValue false false 7 10 [65, 0, 0, 0, 66, 0, 0, 0, 0, 0] = [Otok.text "A<>B"] ∧
    renderValue false false 7 10 [65, 0, 0, 0, 66, 0, 0, 0, 0, 0] ≠ [Otok.text "A<>B <...>"] := by
  decide

/-- C4 amended: trailing zero code units are dropped before string
rendering unless the binary-looks-like-UTF16-text heuristic fired —
full-string mode does not prevent the dropping.  Appending a trailing zero
unit to a string-typed value (SZ = 1, EXPAND_SZ = 2, LINK = 6,
MULTI_SZ = 7) never changes the rendering, in either mode; consequently
the MULTI_SZ sequence `A,0,B,0,0` renders as `A<>B` both in and out of
full-string mode. -/
theorem multiSz_trailing_amended :
    (∀ props alls : Bool,
      renderValue props alls 7 10 [65, 0, 0, 0, 66, 0, 0, 0, 0, 0] = [Otok.text "A<>B"])
    ∧ (∀ (props alls : Bool) (t size : Nat) (data : List Nat),
        t = 1 ∨ t = 2 ∨ t = 6 ∨ t = 7 → data.length = size → 2 ∣ size →
        renderValue props alls t (size + 2) (data ++ [0, 0]) =
          renderValue props alls t size data) := by
  constructor
  · intro props alls
    cases props <;> cases alls <;> decide
  · intro props alls t size data hT hlen hdvd
    obtain ⟨c, rfl⟩ := hdvd
    have husA : ∀ i, i < c → u16at (data ++ [0, 0]) i = u16at data i := by
      intro i hi
      unfold u16at db
      rw [List.getD_append _ _ _ _ (by omega), List.getD_append _ _ _ _ (by omega)]
    have husC : u16at (data ++ [0, 0]) c = 0 := by
      unfold u16at db
      rw [List.getD_append_right _ _ _ _ (by omega),
        List.getD_append_right _ _ _ _ (by omega)]
      have e0 : 2 * c - data.length = 0 := by omega
      have e1 : 2 * c + 1 - data.length = 1 := by omega
      rw [e0, e1]
      rfl
    have htrim : trimZeros (u16at (data ++ [0, 0])) (c + 1) = trimZeros (u16at data) c := by
      simp only [trimZeros, husC]
      norm_num
      exact trimZeros_congr _ _ c husA
    have hsz : trimZeros (u16at data) c ≤ c := trimZeros_le _ c
    rcases hT with rfl | rfl | rfl | rfl <;>
      · simp only [renderValue, computeBintext]
        norm_num
        rw [htrim]
        congr 1
        exact strChunks_congr _ _ _ _ _ _
          (fun i hi => husA i (lt_of_lt_of_le hi hsz)) _
          (fun i hi => List.mem_range.mp hi)

/-- C4 witness: appending a zero unit to a 2-unit MULTI_SZ value leaves
the rendering unchanged in full-string mode, via `multiSz_trailing_amended`. -/
theorem multiSz_trailing_amended_inst :
    renderValue false true 7 (4 + 2) ([65, 0, 66, 0] ++ [0, 0]) =
      renderValue false true 7 4 [65, 0, 66, 0] :=
  multiSz_trailing_amended.2 false true 7 4 [65, 0, 66, 0]
    (Or.inr (Or.inr (Or.inr rfl))) rfl ⟨2, rfl⟩

/-! ## C2 — FILETIME detection for 8-byte QWORD/BINARY/NONE values -/

/-- C2: an 8-byte value of effective type QWORD (11), BINARY (3) or NONE
(0) is rendered as a local date/time exactly when its little-endian signed
64-bit value lies in `[126227808000000000, 157784544000000000)`; the date
is followed by ` (0x<hex>; <signed decimal>)` for QWORD, else by the
comma-separated 2-digit hex bytes in parentheses. -/
theorem filetime_render_iff (props alls : Bool) (t : Nat) (data : List Nat)
    (ht : t = 11 ∨ t = 3 ∨ t = 0) :
    (startsWithTime (renderValue props alls t 8 data) = true ↔
      126227808000000000 ≤ sint64 (le64d data) ∧ sint64 (le64d data) < 157784544000000000)
    ∧ (126227808000000000 ≤ sint64 (le64d data) → sint64 (le64d data) < 157784544000000000 →
        renderValue props alls t 8 data =
          [Otok.time (sint64 (le64d data)) false false,
           Otok.text (if t = 11 then
               " (0x" ++ hexU (le64d data) ++ "; " ++ toString (sint64 (le64d data)) ++ ")"
             else " (" ++ hexPairs (db data) 8 ++ ")")]) := by
  by_cases hr : 126227808000000000 ≤ sint64 (le64d data) ∧
      sint64 (le64d data) < 157784544000000000
  · have hout : renderValue props alls t 8 data =
        [Otok.time (sint64 (le64d data)) false false,
         Otok.text (if t = 11 then
             " (0x" ++ hexU (le64d data) ++ "; " ++ toString (sint64 (le64d data)) ++ ")"
           else " (" ++ hexPairs (db data) 8 ++ ")")] := by
      rcases ht with rfl | rfl | rfl <;> simp [renderValue, hr.1, hr.2]
    refine ⟨?_, fun _ _ => hout⟩
    rw [hout]
    simp [startsWithTime, hr.1, hr.2]
  · have haux : ∀ tt : Nat, tt = 3 ∨ tt = 0 →
        startsWithTime (renderValue props alls tt 8 data) = false := by
      intro tt htt
      by_cases h16 : computeBintext tt 8 data = 16
      · rcases htt with rfl | rfl <;> rcases not_and_or.mp hr with h | h <;>
          simp [renderValue, startsWithTime, h, h16]
      · by_cases h0 : computeBintext tt 8 data = 0 <;>
          rcases htt with rfl | rfl <;> rcases not_and_or.mp hr with h | h <;>
            simp [renderValue, startsWithTime, h, h16, h0]
    have hns : startsWithTime (renderValue props alls t 8 data) = false := by
      rcases ht with rfl | rfl | rfl
      · rcases not_and_or.mp hr with h | h <;> simp [renderValue, startsWithTime, h]
      · exact haux 3 (Or.inl rfl)
      · exact haux 0 (Or.inr rfl)
    refine ⟨?_, fun h1 h2 => absurd ⟨h1, h2⟩ hr⟩
    rw [hns]
    simp only [Bool.false_eq_true, false_iff]
    exact hr

/-- C2 witness: the boundary tick `126227808000000000` (bytes
`00 C0 9D C8 85 73 C0 01`) via `filetime_render_iff` at type QWORD. -/
theorem filetime_render_iff_inst :
    (startsWithTime (renderValue false false 11 8 [0, 192, 157, 200, 133, 115, 192, 1]) = true ↔
      126227808000000000 ≤ sint64 (le64d [0, 192, 157, 200, 133, 115, 192, 1]) ∧
        sint64 (le64d [0, 192, 157, 200, 133, 115, 192, 1]) < 157784544000000000)
    ∧ (126227808000000000 ≤ sint64 (le64d [0, 192, 157, 200, 133, 115, 192, 1]) →
        sint64 (le64d [0, 192, 157, 200, 133, 115, 192, 1]) < 157784544000000000 →
        renderValue false false 11 8 [0, 192, 157, 200, 133, 115, 192, 1] =
          [Otok.time (sint64 (le64d [0, 192, 157, 200, 133, 115, 192, 1])) false false,
           Otok.text (if 11 = 11 then
               " (0x" ++ hexU (le64d [0, 192, 157, 200, 133, 115, 192, 1]) ++ "; " ++
                 toString (sint64 (le64d [0, 192, 157, 200, 133, 115, 192, 1])) ++ ")"
             else " (" ++ hexPairs (db [0, 192, 157, 200, 133, 115, 192, 1]) 8 ++ ")")]) :=
  filetime_render_iff false false 11 [0, 192, 157, 200, 133, 115, 192, 1] (Or.inl rfl)

/-- C9 witness: the decoder at concrete inputs via `make_name_roundtrip`. -/
theorem make_name_roundtrip_inst :
    encByte 65 = charStr 65 ∧ encByte 200 = "<" ++ hex2 200 ++ ">" ∧
    encUnit 255 = "<" ++ hex2 255 ++ ">" ∧ encUnit 4660 = "<" ++ hex4 4660 ++ ">" := by
  refine ⟨(make_name_roundtrip.1 65).1 (by decide), (make_name_roundtrip.1 200).2 (by decide),
    (make_name_roundtrip.2.1 255).2.1 (by decide) (by decide),
    (make_name_roundtrip.2.1 4660).2.2 (by decide) (by decide)⟩

/-! ## C7 / C10 — frame properties of the recursive walker

`walk_frame` is the joint induction: a call restores the context flags it
entered with and never modifies path-buffer bytes strictly before its
position. -/

theorem wr_ne (buf : Nat → Nat) (i v j : Nat) (h : j ≠ i) : wr buf i v j = buf j := by
  simp [wr, h]

theorem writeChars_snd (cs : List Nat) : ∀ (buf : Nat → Nat) (p : Nat),
    (writeChars buf p cs).2 = p + cs.length := by
  induction cs with
  | nil => intro buf p; rfl
  | cons c rest ih =>
    intro buf p
    simp only [writeChars, ih, List.length_cons]
    omega

theorem writeChars_lt (cs : List Nat) : ∀ (buf : Nat → Nat) (p j : Nat), j < p →
    (writeChars buf p cs).1 j = buf j := by
  induction cs with
  | nil => intro buf p j h; rfl
  | cons c rest ih =>
    intro buf p j h
    simp only [writeChars]
    rw [ih (wr buf p c) (p + 1) j (by omega), wr_ne buf p c j (by omega)]

theorem writeName_snd (buf : Nat → Nat) (p : Nat) (cs : List Nat) :
    (writeName buf p cs).2 = p + cs.length := by
  simp only [writeName, writeChars_snd]

theorem writeName_lt (buf : Nat → Nat) (p : Nat) (cs : List Nat) (j : Nat) (h : j < p) :
    (writeName buf p cs).1 j = buf j := by
  simp only [writeName]
  rw [wr_ne _ _ _ _ (by rw [writeChars_snd]; omega), writeChars_lt cs buf p j h]

theorem doValue_buf (cfg : Config) (stamp : Int) (pend : Nat) (st : WState) (v : VRec)
    (j : Nat) (h : j < pend) : (doValue cfg stamp pend st v).buf j = st.buf j := by
  dsimp only [doValue]
  split
  · show wr (wr (wr st.buf pend 47) (pend + 1) 64) (pend + 2) 0 j = st.buf j
    rw [wr_ne _ _ _ _ (by omega), wr_ne _ _ _ _ (by omega), wr_ne _ _ _ _ (by omega)]
  · rw [writeName_lt _ _ _ _ (by omega), wr_ne _ _ _ _ (by omega)]

theorem doValue_flags (cfg : Config) (stamp : Int) (pend : Nat) (st : WState) (v : VRec) :
    (doValue cfg stamp pend st v).flags = st.flags := rfl

theorem foldl_doValue_flags (cfg : Config) (stamp : Int) (pend : Nat) :
    ∀ (vs : List VRec) (st : WState),
      (vs.foldl (doValue cfg stamp pend) st).flags = st.flags := by
  intro vs
  induction vs with
  | nil => intro st; rfl
  | cons v rest ih => intro st; rw [List.foldl_cons, ih, doValue_flags]

theorem foldl_doValue_buf (cfg : Config) (stamp : Int) (pend : Nat) :
    ∀ (vs : List VRec) (st : WState) (j : Nat), j < pend →
      (vs.foldl (doValue cfg stamp pend) st).buf j = st.buf j := by
  intro vs
  induction vs with
  | nil => intro st j h; rfl
  | cons v rest ih =>
    intro st j h
    rw [List.foldl_cons, ih _ j h, doValue_buf cfg stamp pend st v j h]

theorem enterKey_clear (fl : Flags) (name : List Nat) :
    clearLK (enterKey fl name).1 (enterKey fl name).2 = fl := by
  cases fl with
  | mk p d =>
    simp only [enterKey]
    split_ifs with h1 h2 h3 <;> simp_all [clearLK, propsBytes, dpBytes]

mutual
theorem walk_frame (cfg : Config) (st : WState) (pos : Nat) (k : KeyTree) :
    (walk cfg st pos k).flags = st.flags ∧
      ∀ j, j < pos → (walk cfg st pos k).buf j = st.buf j := by
  cases k with
  | node name comp stamp values subs =>
    simp only [walk]
    split
    · constructor
      · exact (walkForest_frame cfg _ _ subs).1
      · intro j hj
        rw [(walkForest_frame cfg _ _ subs).2 j (by rw [writeName_snd]; omega)]
        dsimp only
        rw [writeName_lt _ _ _ _ (by omega), wr_ne _ _ _ _ (by omega)]
    · split
      · constructor
        · dsimp only
          rw [(walkForest_frame cfg _ _ subs).1, foldl_doValue_flags]
          exact enterKey_clear st.flags name
        · intro j hj
          dsimp only
          rw [(walkForest_frame cfg _ _ subs).2 j (by rw [writeName_snd]; omega),
            foldl_doValue_buf cfg stamp _ values _ j (by rw [writeName_snd]; omega)]
          dsimp only
          rw [writeName_lt _ _ _ _ (by omega), wr_ne _ _ _ _ (by omega)]
      · constructor
        · dsimp only
          rw [(walkForest_frame cfg _ _ subs).1, foldl_doValue_flags]
          exact enterKey_clear st.flags name
        · intro j hj
          dsimp only
          rw [(walkForest_frame cfg _ _ subs).2 j (by rw [writeName_snd]; omega),
            foldl_doValue_buf cfg stamp _ values _ j (by rw [writeName_snd]; omega)]
          dsimp only
          rw [writeName_lt _ _ _ _ (by omega), wr_ne _ _ _ _ (by omega)]

theorem walkForest_frame (cfg : Config) (st : WState) (pos : Nat) (f : KeyForest) :
    (walkForest cfg st pos f).flags = st.flags ∧
      ∀ j, j < pos → (walkForest cfg st pos f).buf j = st.buf j := by
  cases f with
  | nil => exact ⟨rfl, fun j hj => rfl⟩
  | cons k rest =>
    simp only [walkForest]
    constructor
    · rw [(walkForest_frame cfg _ _ rest).1, (walk_frame cfg st pos k).1]
    · intro j hj
      rw [(walkForest_frame cfg _ _ rest).2 j hj, (walk_frame cfg st pos k).2 j hj]
end

/-- C7: the two special-subtree flags obey single-boolean semantics: a
flag activates on entering a key named exactly `Properties` or
`DriverPackages` only when not already active, never re-triggers while
active, activates on no other name, and every `walk` call restores on
return exactly the flags it was entered with (clearing precisely the flag
it set, leaving the other unchanged). -/
theorem context_flags_single_boolean :
    (∀ (cfg : Config) (st : WState) (pos : Nat) (k : KeyTree),
      (walk cfg st pos k).flags = st.flags)
    ∧ (∀ (fl : Flags) (name : List Nat), fl.properties = true →
        (enterKey fl name).2 ≠ LK.props ∧ (enterKey fl name).1.properties = true)
    ∧ (∀ (fl : Flags) (name : List Nat), fl.driverpackages = true →
        (enterKey fl name).2 ≠ LK.dp ∧ (enterKey fl name).1.driverpackages = true)
    ∧ (∀ (fl : Flags) (name : List Nat), fl.properties = false → name = propsBytes →
        enterKey fl name = (⟨true, fl.driverpackages⟩, LK.props))
    ∧ (∀ (fl : Flags) (name : List Nat), fl.driverpackages = false → name = dpBytes →
        enterKey fl name = (⟨fl.properties, true⟩, LK.dp))
    ∧ (∀ (fl : Flags) (name : List Nat), name ≠ propsBytes → name ≠ dpBytes →
        enterKey fl name = (fl, LK.noflag))
    ∧ (∀ (fl : Flags) (name : List Nat),
        clearLK (enterKey fl name).1 (enterKey fl name).2 = fl) := by
  refine ⟨fun cfg st pos k => (walk_frame cfg st pos k).1, ?_, ?_, ?_, ?_, ?_,
    fun fl name => enterKey_clear fl name⟩
  · intro fl name h
    simp only [enterKey, h]
    split_ifs <;> simp_all
  · intro fl name h
    simp only [enterKey, h]
    split_ifs <;> simp_all
  · intro fl name hp hn
    have hd : name ≠ dpBytes := by rw [hn]; decide
    simp [enterKey, hp, hn, hd, show propsBytes ≠ dpBytes from by decide]
  · intro fl name hd hn
    have hp : name ≠ propsBytes := by rw [hn]; decide
    simp [enterKey, hd, hn, hp, show dpBytes ≠ propsBytes from by decide]
  · intro fl name hp hd
    simp [enterKey, hp, hd]

/-- C7 witness: flag activation, non-re-triggering and restoration at
concrete inputs via `context_flags_single_boolean`. -/
theorem context_flags_single_boolean_inst :
    (walk defaultConfig demoSt 0 demoKey).flags = demoSt.flags ∧
    (enterKey ⟨true, false⟩ propsBytes).2 ≠ LK.props ∧
    enterKey ⟨false, false⟩ propsBytes = (⟨true, false⟩, LK.props) ∧
    enterKey ⟨false, false⟩ dpBytes = (⟨false, true⟩, LK.dp) ∧
    enterKey ⟨false, false⟩ [65] = (⟨false, false⟩, LK.noflag) :=
  ⟨context_flags_single_boolean.1 defaultConfig demoSt 0 demoKey,
    (context_flags_single_boolean.2.1 ⟨true, false⟩ propsBytes rfl).1,
    context_flags_single_boolean.2.2.2.1 ⟨false, false⟩ propsBytes rfl rfl,
    context_flags_single_boolean.2.2.2.2.1 ⟨false, false⟩ dpBytes rfl rfl,
    context_flags_single_boolean.2.2.2.2.2.1 ⟨false, false⟩ [65] (by decide) (by decide)⟩

/-- C10: every call of the recursive walker leaves the path-buffer bytes
strictly before its position unchanged on return, so the accumulated
prefix seen by the parent and later siblings is preserved. -/
theorem walk_path_prefix_frame :
    ∀ (cfg : Config) (st : WState) (pos : Nat) (k : KeyTree) (j : Nat), j < pos →
      (walk cfg st pos k).buf j = st.buf j :=
  fun cfg st pos k j hj => (walk_frame cfg st pos k).2 j hj

/-- C10 witness: the frame property at a concrete call via
`walk_path_prefix_frame`. -/
theorem walk_path_prefix_frame_inst :
    (walk defaultConfig demoSt 5 demoKey).buf 3 = demoSt.buf 3 :=
  walk_path_prefix_frame defaultConfig demoSt 5 demoKey 3 (by decide)

end Regdump
